import Mathlib

/-!
Verification of the square-matrix multiplication repository
(`src/utility/matrix_benchmark.py` and `src/utility/answer.py`).

A matrix is a list of rows of integers, as in the Python sources
(`Matrix = List[List[int]]`).  Python indexing `A[i][j]` is embedded as
`idx`, which defaults to `0` out of range; every theorem below only relies
on in-range accesses, where this embedding agrees with Python exactly.
Python slices `row[:m]` / `row[m:]` are `List.take` / `List.drop`, which
match Python slicing on all inputs.  The entry points, whose Python
versions can raise (`assert` / `ValueError`), return `Except String`.
-/

namespace MatMul

/-- Matrices are dense row lists of integers, `Matrix = List[List[int]]`. -/
abbrev Matrix := List (List Int)

/-- Python `A[i][j]` (in-range accesses only are used by the theorems). -/
def idx (A : Matrix) (i j : Nat) : Int := (A.getD i []).getD j 0

/-- `matmul_classic` from both source files: the classic triple loop in
i-k-j order.  Row `C[i]` starts as `[0] * n`; the `k`-loop adds
`aik * Bk[j]` into each `C[i][j]`. -/
def matmul_classic (A B : Matrix) : Matrix :=
  let n := A.length
  (List.range n).map fun i =>
    (List.range n).foldl
      (fun Ci k => (List.range n).map fun j => Ci.getD j 0 + idx A i k * idx B k j)
      (List.replicate n 0)

/-- `add_matrix`: `[[A[i][j] + B[i][j] for j in range(n)] for i in range(n)]`
with `n = len(A)`. -/
def add_matrix (A B : Matrix) : Matrix :=
  let n := A.length
  (List.range n).map fun i => (List.range n).map fun j => idx A i j + idx B i j

/-- `sub_matrix`: elementwise difference, same shape as `add_matrix`. -/
def sub_matrix (A B : Matrix) : Matrix :=
  let n := A.length
  (List.range n).map fun i => (List.range n).map fun j => idx A i j - idx B i j

/-- Top-left quadrant `a11 = [row[:m] for row in A[:m]]`. -/
def quadTL (m : Nat) (A : Matrix) : Matrix := (A.take m).map (List.take m)

/-- Top-right quadrant `a12 = [row[m:] for row in A[:m]]`. -/
def quadTR (m : Nat) (A : Matrix) : Matrix := (A.take m).map (List.drop m)

/-- Bottom-left quadrant `a21 = [row[:m] for row in A[m:]]`. -/
def quadBL (m : Nat) (A : Matrix) : Matrix := (A.drop m).map (List.take m)

/-- Bottom-right quadrant `a22 = [row[m:] for row in A[m:]]`. -/
def quadBR (m : Nat) (A : Matrix) : Matrix := (A.drop m).map (List.drop m)

/-- Reassembly `C = [c11[i] + c12[i] for i in range(m)] + [c21[i] + c22[i]
for i in range(m)]` (Python `+` on rows is list concatenation). -/
def joinQuads (m : Nat) (c11 c12 c21 c22 : Matrix) : Matrix :=
  ((List.range m).map fun i => c11.getD i [] ++ c12.getD i []) ++
    ((List.range m).map fun i => c21.getD i [] ++ c22.getD i [])

/-- Fuel-indexed body of `_strassen_core` from `matrix_benchmark.py`:
classical fallback at `n <= cutoff`, otherwise split into quadrants, seven
recursive products M1..M7, Strassen combination; no odd-order check (the
entry point only calls it on power-of-two orders).  The Python recursion
diverges when `cutoff = 0` (e.g. on a 1x1 input), so the Lean embedding
carries a fuel argument, seeded with `len(A)` by the wrapper below; that
seed bounds the recursion depth whenever `cutoff ≥ 1`, and every theorem
assumes `1 ≤ cutoff`, so the fuel-exhausted branch is never reached there. -/
def strassenGo : Nat → Matrix → Matrix → Nat → Matrix
  | 0, A, B, _ => matmul_classic A B
  | fuel + 1, A, B, cutoff =>
    if A.length ≤ cutoff then matmul_classic A B
    else
      let m := A.length / 2
      let a11 := quadTL m A
      let a12 := quadTR m A
      let a21 := quadBL m A
      let a22 := quadBR m A
      let b11 := quadTL m B
      let b12 := quadTR m B
      let b21 := quadBL m B
      let b22 := quadBR m B
      let M1 := strassenGo fuel (add_matrix a11 a22) (add_matrix b11 b22) cutoff
      let M2 := strassenGo fuel (add_matrix a21 a22) b11 cutoff
      let M3 := strassenGo fuel a11 (sub_matrix b12 b22) cutoff
      let M4 := strassenGo fuel a22 (sub_matrix b21 b11) cutoff
      let M5 := strassenGo fuel (add_matrix a11 a12) b22 cutoff
      let M6 := strassenGo fuel (sub_matrix a21 a11) (add_matrix b11 b12) cutoff
      let M7 := strassenGo fuel (sub_matrix a12 a22) (add_matrix b21 b22) cutoff
      joinQuads m
        (sub_matrix (add_matrix (add_matrix M1 M4) M7) M5)
        (add_matrix M3 M5)
        (add_matrix M2 M4)
        (add_matrix (sub_matrix (add_matrix M1 M3) M2) M6)

/-- `_strassen_core` from `matrix_benchmark.py` (see `strassenGo`). -/
def _strassen_core (A B : Matrix) (cutoff : Nat) : Matrix :=
  strassenGo A.length A B cutoff

/-- Fuel-indexed body of `_strassen_winograd_core` from
`matrix_benchmark.py`: same fallback as `strassenGo`, ten auxiliary sums
S1..S10, seven recursive products P1..P7, Winograd combination. -/
def winogradGo : Nat → Matrix → Matrix → Nat → Matrix
  | 0, A, B, _ => matmul_classic A B
  | fuel + 1, A, B, cutoff =>
    if A.length ≤ cutoff then matmul_classic A B
    else
      let m := A.length / 2
      let a11 := quadTL m A
      let a12 := quadTR m A
      let a21 := quadBL m A
      let a22 := quadBR m A
      let b11 := quadTL m B
      let b12 := quadTR m B
      let b21 := quadBL m B
      let b22 := quadBR m B
      let S1 := sub_matrix b12 b22
      let S2 := add_matrix a11 a12
      let S3 := add_matrix a21 a22
      let S4 := sub_matrix b21 b11
      let S5 := add_matrix a11 a22
      let S6 := add_matrix b11 b22
      let S7 := sub_matrix a12 a22
      let S8 := add_matrix b21 b22
      let S9 := sub_matrix a11 a21
      let S10 := add_matrix b11 b12
      let P1 := winogradGo fuel a11 S1 cutoff
      let P2 := winogradGo fuel S2 b22 cutoff
      let P3 := winogradGo fuel S3 b11 cutoff
      let P4 := winogradGo fuel a22 S4 cutoff
      let P5 := winogradGo fuel S5 S6 cutoff
      let P6 := winogradGo fuel S7 S8 cutoff
      let P7 := winogradGo fuel S9 S10 cutoff
      joinQuads m
        (add_matrix (sub_matrix (add_matrix P5 P4) P2) P6)
        (add_matrix P1 P2)
        (add_matrix P3 P4)
        (sub_matrix (sub_matrix (add_matrix P5 P1) P3) P7)

/-- `_strassen_winograd_core` from `matrix_benchmark.py` (see `winogradGo`). -/
def _strassen_winograd_core (A B : Matrix) (cutoff : Nat) : Matrix :=
  winogradGo A.length A B cutoff

/-- Fuel-indexed body of `strassen_core` from `answer.py`: like
`strassenGo` but with the odd-order fallback
`if n % 2 == 1: return matmul_classic(A, B)`. -/
def answerGo : Nat → Matrix → Matrix → Nat → Matrix
  | 0, A, B, _ => matmul_classic A B
  | fuel + 1, A, B, cutoff =>
    if A.length ≤ cutoff then matmul_classic A B
    else if A.length % 2 = 1 then matmul_classic A B
    else
      let m := A.length / 2
      let a11 := quadTL m A
      let a12 := quadTR m A
      let a21 := quadBL m A
      let a22 := quadBR m A
      let b11 := quadTL m B
      let b12 := quadTR m B
      let b21 := quadBL m B
      let b22 := quadBR m B
      let m1 := answerGo fuel (add_matrix a11 a22) (add_matrix b11 b22) cutoff
      let m2 := answerGo fuel (add_matrix a21 a22) b11 cutoff
      let m3 := answerGo fuel a11 (sub_matrix b12 b22) cutoff
      let m4 := answerGo fuel a22 (sub_matrix b21 b11) cutoff
      let m5 := answerGo fuel (add_matrix a11 a12) b22 cutoff
      let m6 := answerGo fuel (sub_matrix a21 a11) (add_matrix b11 b12) cutoff
      let m7 := answerGo fuel (sub_matrix a12 a22) (add_matrix b21 b22) cutoff
      joinQuads m
        (sub_matrix (add_matrix (add_matrix m1 m4) m7) m5)
        (add_matrix m3 m5)
        (add_matrix m2 m4)
        (add_matrix (sub_matrix (add_matrix m1 m3) m2) m6)

/-- `strassen_core` from `answer.py` (see `answerGo`). -/
def strassen_core (A B : Matrix) (cutoff : Nat) : Matrix :=
  answerGo A.length A B cutoff

/-- Zero padding from the entry points:
`Ap = [row + [0] * (m - n) for row in A] + [[0] * m for _ in range(m - n)]`. -/
def padMat (m n : Nat) (A : Matrix) : Matrix :=
  A.map (fun row => row ++ List.replicate (m - n) 0) ++
    ((List.range (m - n)).map fun _ => List.replicate m 0)

/-- Final crop from the entry points: `[row[:n] for row in Cp[:n]]`. -/
def cropTo (n : Nat) (C : Matrix) : Matrix := (C.take n).map (List.take n)

/-- Error message of the entry-point shape assertion. -/
def shapeErrMsg : String := "matrices must be square and of the same size"

/-- `matmul_strassen` from `matrix_benchmark.py`: empty input short-circuit,
shape assertion on the first rows, padding to the next power of two when
`n & (n - 1)` is nonzero, then `_strassen_core` and crop. -/
def matmul_strassen (A B : Matrix) (cutoff : Nat) : Except String Matrix :=
  let n := A.length
  if n = 0 then Except.ok []
  else if ¬(n = B.length ∧ n = (A.getD 0 []).length ∧ n = (B.getD 0 []).length) then
    Except.error shapeErrMsg
  else if n &&& (n - 1) ≠ 0 then
    let m := 1 <<< (n - 1).size
    Except.ok (cropTo n (_strassen_core (padMat m n A) (padMat m n B) cutoff))
  else Except.ok (_strassen_core A B cutoff)

/-- `matmul_strassen_winograd` from `matrix_benchmark.py`: identical wrapper
around `_strassen_winograd_core`. -/
def matmul_strassen_winograd (A B : Matrix) (cutoff : Nat) : Except String Matrix :=
  let n := A.length
  if n = 0 then Except.ok []
  else if ¬(n = B.length ∧ n = (A.getD 0 []).length ∧ n = (B.getD 0 []).length) then
    Except.error shapeErrMsg
  else if n &&& (n - 1) ≠ 0 then
    let m := 1 <<< (n - 1).size
    Except.ok (cropTo n (_strassen_winograd_core (padMat m n A) (padMat m n B) cutoff))
  else Except.ok (_strassen_winograd_core A B cutoff)

/-- `matmul_strassen` from `answer.py`: same validation, no padding, always
delegates to the odd-aware `strassen_core`. -/
def Answer.matmul_strassen (A B : Matrix) (cutoff : Nat) : Except String Matrix :=
  let n := A.length
  if n = 0 then Except.ok []
  else if n ≠ B.length ∨ n ≠ (A.getD 0 []).length ∨ n ≠ (B.getD 0 []).length then
    Except.error shapeErrMsg
  else Except.ok (strassen_core A B cutoff)

/-- Specification-side product: the matrix `C` of order `n` with
`C[i][j] = ∑ k < n, A[i][k] * B[k][j]` (the standard matrix product, as
worded in the spec). -/
def matProdSpec (n : Nat) (A B : Matrix) : Matrix :=
  (List.range n).map fun i =>
    (List.range n).map fun j => ∑ k ∈ Finset.range n, idx A i k * idx B k j

/-- Well-formed square matrix of order `n`: `n` rows, each of length `n`. -/
def wf (n : Nat) (A : Matrix) : Prop := A.length = n ∧ ∀ row ∈ A, row.length = n

instance (n : Nat) (A : Matrix) : Decidable (wf n A) :=
  inferInstanceAs (Decidable (_ ∧ _))

/-! ### List access helpers -/

theorem getD_map_range {α : Type} (f : Nat → α) (n i : Nat) (d : α) :
    ((List.range n).map f).getD i d = if i < n then f i else d := by
  rcases Nat.lt_or_ge i n with h | h
  · rw [List.getD_eq_getElem?_getD, List.getElem?_map, List.getElem?_range h, if_pos h]
    rfl
  · rw [List.getD_eq_getElem?_getD, List.getElem?_eq_none (by simpa using h),
      if_neg (Nat.not_lt.mpr h)]
    rfl

theorem getD_append {α : Type} (l1 l2 : List α) (i : Nat) (d : α) :
    (l1 ++ l2).getD i d =
      if i < l1.length then l1.getD i d else l2.getD (i - l1.length) d := by
  rw [List.getD_eq_getElem?_getD, List.getElem?_append]
  split
  · exact (List.getD_eq_getElem?_getD l1 i d).symm
  · exact (List.getD_eq_getElem?_getD l2 (i - l1.length) d).symm

theorem getD_take {α : Type} (l : List α) (m i : Nat) (d : α) (h : i < m) :
    (l.take m).getD i d = l.getD i d := by
  rw [List.getD_eq_getElem?_getD, List.getD_eq_getElem?_getD, List.getElem?_take, if_pos h]

theorem getD_drop {α : Type} (l : List α) (m i : Nat) (d : α) :
    (l.drop m).getD i d = l.getD (m + i) d := by
  rw [List.getD_eq_getElem?_getD, List.getD_eq_getElem?_getD, List.getElem?_drop]

theorem getD_map_len {α β : Type} (f : α → β) (l : List α) {i : Nat}
    (h : i < l.length) (d : β) (d2 : α) : (l.map f).getD i d = f (l.getD i d2) := by
  have h2 : i < (l.map f).length := by simpa using h
  rw [List.getD_eq_getElem _ _ h2, List.getElem_map, List.getD_eq_getElem _ _ h]

theorem getD_replicate {α : Type} (n i : Nat) (a d : α) :
    (List.replicate n a).getD i d = if i < n then a else d := by
  rw [List.getD_eq_getElem?_getD, List.getElem?_replicate]
  split <;> rfl

theorem getD_mem {α : Type} {l : List α} {i : Nat} (d : α) (h : i < l.length) :
    l.getD i d ∈ l := by
  rw [List.getD_eq_getElem _ _ h]
  exact List.getElem_mem h

/-! ### Shape lemmas -/

theorem add_matrix_length (A B : Matrix) : (add_matrix A B).length = A.length := by
  simp [add_matrix]

theorem sub_matrix_length (A B : Matrix) : (sub_matrix A B).length = A.length := by
  simp [sub_matrix]

theorem matProdSpec_length (n : Nat) (A B : Matrix) : (matProdSpec n A B).length = n := by
  simp [matProdSpec]

theorem wf_mk (f : Nat → Nat → Int) (n : Nat) :
    wf n ((List.range n).map fun i => (List.range n).map fun j => f i j) := by
  constructor
  · simp
  · intro row hrow
    simp only [List.mem_map, List.mem_range] at hrow
    obtain ⟨i, _, rfl⟩ := hrow
    simp

theorem add_matrix_wf (A B : Matrix) : wf A.length (add_matrix A B) :=
  wf_mk (fun i j => idx A i j + idx B i j) A.length

theorem sub_matrix_wf (A B : Matrix) : wf A.length (sub_matrix A B) :=
  wf_mk (fun i j => idx A i j - idx B i j) A.length

theorem matProdSpec_wf (n : Nat) (A B : Matrix) : wf n (matProdSpec n A B) :=
  wf_mk (fun i j => ∑ k ∈ Finset.range n, idx A i k * idx B k j) n

theorem wf_cast {n m : Nat} {A : Matrix} (h : wf n A) (e : n = m) : wf m A := e ▸ h

theorem wf_add_of {X : Matrix} {m : Nat} (h : X.length = m) (Y : Matrix) :
    wf m (add_matrix X Y) := wf_cast (add_matrix_wf X Y) h

theorem wf_sub_of {X : Matrix} {m : Nat} (h : X.length = m) (Y : Matrix) :
    wf m (sub_matrix X Y) := wf_cast (sub_matrix_wf X Y) h

/-! ### Entry lemmas -/

theorem idx_mk (f : Nat → Nat → Int) (n : Nat) {i j : Nat} (hi : i < n) (hj : j < n) :
    idx ((List.range n).map fun i => (List.range n).map fun j => f i j) i j = f i j := by
  unfold idx
  rw [getD_map_range, if_pos hi, getD_map_range, if_pos hj]

theorem idx_add (X Y : Matrix) {m i j : Nat} (h : X.length = m)
    (hi : i < m) (hj : j < m) : idx (add_matrix X Y) i j = idx X i j + idx Y i j :=
  idx_mk (fun a b => idx X a b + idx Y a b) X.length (by rw [h]; exact hi)
    (by rw [h]; exact hj)

theorem idx_sub (X Y : Matrix) {m i j : Nat} (h : X.length = m)
    (hi : i < m) (hj : j < m) : idx (sub_matrix X Y) i j = idx X i j - idx Y i j :=
  idx_mk (fun a b => idx X a b - idx Y a b) X.length (by rw [h]; exact hi)
    (by rw [h]; exact hj)

theorem idx_matProdSpec (n : Nat) (A B : Matrix) {i j : Nat} (hi : i < n) (hj : j < n) :
    idx (matProdSpec n A B) i j = ∑ k ∈ Finset.range n, idx A i k * idx B k j :=
  idx_mk (fun a b => ∑ k ∈ Finset.range n, idx A a k * idx B k b) n hi hj

/-! ### Quadrant lemmas -/

theorem quadTL_len {m : Nat} {A : Matrix} (hA : wf (2 * m) A) : (quadTL m A).length = m := by
  simp [quadTL, hA.1]
  omega

theorem quadTR_len {m : Nat} {A : Matrix} (hA : wf (2 * m) A) : (quadTR m A).length = m := by
  simp [quadTR, hA.1]
  omega

theorem quadBL_len {m : Nat} {A : Matrix} (hA : wf (2 * m) A) : (quadBL m A).length = m := by
  simp [quadBL, hA.1]
  omega

theorem quadBR_len {m : Nat} {A : Matrix} (hA : wf (2 * m) A) : (quadBR m A).length = m := by
  simp [quadBR, hA.1]
  omega

theorem quadTL_wf {m : Nat} {A : Matrix} (hA : wf (2 * m) A) : wf m (quadTL m A) := by
  refine ⟨quadTL_len hA, ?_⟩
  intro row hrow
  simp only [quadTL, List.mem_map] at hrow
  obtain ⟨r, hr, rfl⟩ := hrow
  have := hA.2 r (List.mem_of_mem_take hr)
  simp [this]
  omega

theorem quadTR_wf {m : Nat} {A : Matrix} (hA : wf (2 * m) A) : wf m (quadTR m A) := by
  refine ⟨quadTR_len hA, ?_⟩
  intro row hrow
  simp only [quadTR, List.mem_map] at hrow
  obtain ⟨r, hr, rfl⟩ := hrow
  have := hA.2 r (List.mem_of_mem_take hr)
  simp [this]
  omega

theorem quadBL_wf {m : Nat} {A : Matrix} (hA : wf (2 * m) A) : wf m (quadBL m A) := by
  refine ⟨quadBL_len hA, ?_⟩
  intro row hrow
  simp only [quadBL, List.mem_map] at hrow
  obtain ⟨r, hr, rfl⟩ := hrow
  have := hA.2 r (List.mem_of_mem_drop hr)
  simp [this]
  omega

theorem quadBR_wf {m : Nat} {A : Matrix} (hA : wf (2 * m) A) : wf m (quadBR m A) := by
  refine ⟨quadBR_len hA, ?_⟩
  intro row hrow
  simp only [quadBR, List.mem_map] at hrow
  obtain ⟨r, hr, rfl⟩ := hrow
  have := hA.2 r (List.mem_of_mem_drop hr)
  simp [this]
  omega

theorem idx_quadTL {m : Nat} {A : Matrix} (hA : wf (2 * m) A) {i j : Nat}
    (hi : i < m) (hj : j < m) : idx (quadTL m A) i j = idx A i j := by
  unfold idx quadTL
  have hit : i < (A.take m).length := by simp [hA.1]; omega
  rw [getD_map_len _ _ hit [] [], getD_take _ _ _ _ hj, getD_take _ _ _ _ hi]

theorem idx_quadTR {m : Nat} {A : Matrix} (hA : wf (2 * m) A) {i j : Nat}
    (hi : i < m) : idx (quadTR m A) i j = idx A i (m + j) := by
  unfold idx quadTR
  have hit : i < (A.take m).length := by simp [hA.1]; omega
  rw [getD_map_len _ _ hit [] [], getD_drop, getD_take _ _ _ _ hi]

theorem idx_quadBL {m : Nat} {A : Matrix} (hA : wf (2 * m) A) {i j : Nat}
    (hi : i < m) (hj : j < m) : idx (quadBL m A) i j = idx A (m + i) j := by
  unfold idx quadBL
  have hit : i < (A.drop m).length := by simp [hA.1]; omega
  rw [getD_map_len _ _ hit [] [], getD_take _ _ _ _ hj, getD_drop]

theorem idx_quadBR {m : Nat} {A : Matrix} (hA : wf (2 * m) A) {i j : Nat}
    (hi : i < m) : idx (quadBR m A) i j = idx A (m + i) (m + j) := by
  unfold idx quadBR
  have hit : i < (A.drop m).length := by simp [hA.1]; omega
  rw [getD_map_len _ _ hit [] [], getD_drop, getD_drop]

theorem joinQuads_wf {m : Nat} {c11 c12 c21 c22 : Matrix}
    (h11 : wf m c11) (h12 : wf m c12) (h21 : wf m c21) (h22 : wf m c22) :
    wf (2 * m) (joinQuads m c11 c12 c21 c22) := by
  constructor
  · simp [joinQuads]
    omega
  · intro row hrow
    simp only [joinQuads, List.mem_append, List.mem_map, List.mem_range] at hrow
    rcases hrow with ⟨i, hi, rfl⟩ | ⟨i, hi, rfl⟩
    · have l1 : (c11.getD i []).length = m := h11.2 _ (getD_mem [] (by rw [h11.1]; exact hi))
      have l2 : (c12.getD i []).length = m := h12.2 _ (getD_mem [] (by rw [h12.1]; exact hi))
      rw [List.length_append, l1, l2]
      omega
    · have l1 : (c21.getD i []).length = m := h21.2 _ (getD_mem [] (by rw [h21.1]; exact hi))
      have l2 : (c22.getD i []).length = m := h22.2 _ (getD_mem [] (by rw [h22.1]; exact hi))
      rw [List.length_append, l1, l2]
      omega

theorem idx_joinQuads {m : Nat} {c11 c12 c21 c22 : Matrix}
    (h11 : wf m c11) (h12 : wf m c12) (h21 : wf m c21) (h22 : wf m c22)
    {i j : Nat} (hi : i < 2 * m) :
    idx (joinQuads m c11 c12 c21 c22) i j =
      if i < m then
        if j < m then idx c11 i j else idx c12 i (j - m)
      else
        if j < m then idx c21 (i - m) j else idx c22 (i - m) (j - m) := by
  unfold idx joinQuads
  rw [getD_append]
  simp only [List.length_map, List.length_range]
  by_cases him : i < m
  · rw [if_pos him, if_pos him, getD_map_range, if_pos him]
    have hr : (c11.getD i []).length = m := h11.2 _ (getD_mem [] (by rw [h11.1]; exact him))
    rw [getD_append, hr]
  · rw [if_neg him, if_neg him]
    have him2 : i - m < m := by omega
    rw [getD_map_range, if_pos him2]
    have hr : (c21.getD (i - m) []).length = m :=
      h21.2 _ (getD_mem [] (by rw [h21.1]; exact him2))
    rw [getD_append, hr]

/-! ### Extensionality -/

theorem matrix_ext {n : Nat} {A B : Matrix} (hA : wf n A) (hB : wf n B)
    (h : ∀ i j, i < n → j < n → idx A i j = idx B i j) : A = B := by
  apply List.ext_getElem (by rw [hA.1, hB.1])
  intro i h1 h2
  have hrA : A[i].length = n := hA.2 _ (List.getElem_mem h1)
  have hrB : B[i].length = n := hB.2 _ (List.getElem_mem h2)
  apply List.ext_getElem (by rw [hrA, hrB])
  intro j hj1 hj2
  have hin : i < n := by rw [← hA.1]; exact h1
  have hjn : j < n := by rw [← hrA]; exact hj1
  have he := h i j hin hjn
  unfold idx at he
  rwa [List.getD_eq_getElem _ _ h1, List.getD_eq_getElem _ _ hj1,
    List.getD_eq_getElem _ _ h2, List.getD_eq_getElem _ _ hj2] at he

/-! ### The classic triple loop computes the standard product -/

theorem classic_row (A B : Matrix) (n i : Nat) (N : Nat) :
    (List.range N).foldl
      (fun Ci k => (List.range n).map fun j => Ci.getD j 0 + idx A i k * idx B k j)
      (List.replicate n 0)
    = (List.range n).map fun j => ∑ k ∈ Finset.range N, idx A i k * idx B k j := by
  induction N with
  | zero =>
    simp [Finset.sum_range_zero, List.map_const']
  | succ N ih =>
    rw [List.range_succ, List.foldl_append, ih]
    simp only [List.foldl_cons, List.foldl_nil]
    refine List.map_congr_left fun j hj => ?_
    rw [List.mem_range] at hj
    rw [getD_map_range, if_pos hj, Finset.sum_range_succ]

theorem matmul_classic_eq_spec (A B : Matrix) :
    matmul_classic A B = matProdSpec A.length A B := by
  simp only [matmul_classic, matProdSpec]
  refine List.map_congr_left fun i _ => ?_
  exact classic_row A B A.length i A.length

theorem matmul_classic_wf (A B : Matrix) : wf A.length (matmul_classic A B) := by
  rw [matmul_classic_eq_spec]
  exact matProdSpec_wf _ _ _

/-! ### Scalar-level Strassen and Winograd identities (summed over a block row) -/

theorem strassen_sum11 (m : Nat) (a b d e g h : Nat → Int) :
    (∑ k ∈ Finset.range m, (a k + d k) * (e k + h k))
        + (∑ k ∈ Finset.range m, d k * (g k - e k))
        + (∑ k ∈ Finset.range m, (b k - d k) * (g k + h k))
        - (∑ k ∈ Finset.range m, (a k + b k) * h k)
      = (∑ k ∈ Finset.range m, a k * e k) + ∑ k ∈ Finset.range m, b k * g k := by
  rw [← Finset.sum_add_distrib, ← Finset.sum_add_distrib, ← Finset.sum_sub_distrib,
    ← Finset.sum_add_distrib]
  exact Finset.sum_congr rfl fun k _ => by ring

theorem sum12 (m : Nat) (a b f h : Nat → Int) :
    (∑ k ∈ Finset.range m, a k * (f k - h k))
        + (∑ k ∈ Finset.range m, (a k + b k) * h k)
      = (∑ k ∈ Finset.range m, a k * f k) + ∑ k ∈ Finset.range m, b k * h k := by
  rw [← Finset.sum_add_distrib, ← Finset.sum_add_distrib]
  exact Finset.sum_congr rfl fun k _ => by ring

theorem sum21 (m : Nat) (c d e g : Nat → Int) :
    (∑ k ∈ Finset.range m, (c k + d k) * e k)
        + (∑ k ∈ Finset.range m, d k * (g k - e k))
      = (∑ k ∈ Finset.range m, c k * e k) + ∑ k ∈ Finset.range m, d k * g k := by
  rw [← Finset.sum_add_distrib, ← Finset.sum_add_distrib]
  exact Finset.sum_congr rfl fun k _ => by ring

theorem strassen_sum22 (m : Nat) (a c d e f h : Nat → Int) :
    (∑ k ∈ Finset.range m, (a k + d k) * (e k + h k))
        + (∑ k ∈ Finset.range m, a k * (f k - h k))
        - (∑ k ∈ Finset.range m, (c k + d k) * e k)
        + (∑ k ∈ Finset.range m, (c k - a k) * (e k + f k))
      = (∑ k ∈ Finset.range m, c k * f k) + ∑ k ∈ Finset.range m, d k * h k := by
  rw [← Finset.sum_add_distrib, ← Finset.sum_sub_distrib, ← Finset.sum_add_distrib,
    ← Finset.sum_add_distrib]
  exact Finset.sum_congr rfl fun k _ => by ring

theorem winograd_sum11 (m : Nat) (a b d e g h : Nat → Int) :
    (∑ k ∈ Finset.range m, (a k + d k) * (e k + h k))
        + (∑ k ∈ Finset.range m, d k * (g k - e k))
        - (∑ k ∈ Finset.range m, (a k + b k) * h k)
        + (∑ k ∈ Finset.range m, (b k - d k) * (g k + h k))
      = (∑ k ∈ Finset.range m, a k * e k) + ∑ k ∈ Finset.range m, b k * g k := by
  rw [← Finset.sum_add_distrib, ← Finset.sum_sub_distrib, ← Finset.sum_add_distrib,
    ← Finset.sum_add_distrib]
  exact Finset.sum_congr rfl fun k _ => by ring

theorem winograd_sum22 (m : Nat) (a c d e f h : Nat → Int) :
    (∑ k ∈ Finset.range m, (a k + d k) * (e k + h k))
        + (∑ k ∈ Finset.range m, a k * (f k - h k))
        - (∑ k ∈ Finset.range m, (c k + d k) * e k)
        - (∑ k ∈ Finset.range m, (a k - c k) * (e k + f k))
      = (∑ k ∈ Finset.range m, c k * f k) + ∑ k ∈ Finset.range m, d k * h k := by
  rw [← Finset.sum_add_distrib, ← Finset.sum_sub_distrib, ← Finset.sum_sub_distrib,
    ← Finset.sum_add_distrib]
  exact Finset.sum_congr rfl fun k _ => by ring

/-! ### Entries of the seven block products (shared by both engines) -/

theorem idx_M1 {m : Nat} {A B : Matrix} (hA : wf (2 * m) A) (hB : wf (2 * m) B)
    {i j : Nat} (him : i < m) (hjm : j < m) :
    idx (matProdSpec m (add_matrix (quadTL m A) (quadBR m A))
        (add_matrix (quadTL m B) (quadBR m B))) i j
      = ∑ k ∈ Finset.range m,
          (idx A i k + idx A (m + i) (m + k)) * (idx B k j + idx B (m + k) (m + j)) := by
  rw [idx_matProdSpec _ _ _ him hjm]
  refine Finset.sum_congr rfl fun k hk => ?_
  rw [Finset.mem_range] at hk
  rw [idx_add _ _ (quadTL_len hA) him hk, idx_add _ _ (quadTL_len hB) hk hjm,
    idx_quadTL hA him hk, idx_quadBR hA him, idx_quadTL hB hk hjm, idx_quadBR hB hk]

theorem idx_M2 {m : Nat} {A B : Matrix} (hA : wf (2 * m) A) (hB : wf (2 * m) B)
    {i j : Nat} (him : i < m) (hjm : j < m) :
    idx (matProdSpec m (add_matrix (quadBL m A) (quadBR m A)) (quadTL m B)) i j
      = ∑ k ∈ Finset.range m,
          (idx A (m + i) k + idx A (m + i) (m + k)) * idx B k j := by
  rw [idx_matProdSpec _ _ _ him hjm]
  refine Finset.sum_congr rfl fun k hk => ?_
  rw [Finset.mem_range] at hk
  rw [idx_add _ _ (quadBL_len hA) him hk, idx_quadBL hA him hk, idx_quadBR hA him,
    idx_quadTL hB hk hjm]

theorem idx_M3 {m : Nat} {A B : Matrix} (hA : wf (2 * m) A) (hB : wf (2 * m) B)
    {i j : Nat} (him : i < m) (hjm : j < m) :
    idx (matProdSpec m (quadTL m A) (sub_matrix (quadTR m B) (quadBR m B))) i j
      = ∑ k ∈ Finset.range m,
          idx A i k * (idx B k (m + j) - idx B (m + k) (m + j)) := by
  rw [idx_matProdSpec _ _ _ him hjm]
  refine Finset.sum_congr rfl fun k hk => ?_
  rw [Finset.mem_range] at hk
  rw [idx_quadTL hA him hk, idx_sub _ _ (quadTR_len hB) hk hjm, idx_quadTR hB hk,
    idx_quadBR hB hk]

theorem idx_M4 {m : Nat} {A B : Matrix} (hA : wf (2 * m) A) (hB : wf (2 * m) B)
    {i j : Nat} (him : i < m) (hjm : j < m) :
    idx (matProdSpec m (quadBR m A) (sub_matrix (quadBL m B) (quadTL m B))) i j
      = ∑ k ∈ Finset.range m,
          idx A (m + i) (m + k) * (idx B (m + k) j - idx B k j) := by
  rw [idx_matProdSpec _ _ _ him hjm]
  refine Finset.sum_congr rfl fun k hk => ?_
  rw [Finset.mem_range] at hk
  rw [idx_quadBR hA him, idx_sub _ _ (quadBL_len hB) hk hjm, idx_quadBL hB hk hjm,
    idx_quadTL hB hk hjm]

theorem idx_M5 {m : Nat} {A B : Matrix} (hA : wf (2 * m) A) (hB : wf (2 * m) B)
    {i j : Nat} (him : i < m) (hjm : j < m) :
    idx (matProdSpec m (add_matrix (quadTL m A) (quadTR m A)) (quadBR m B)) i j
      = ∑ k ∈ Finset.range m,
          (idx A i k + idx A i (m + k)) * idx B (m + k) (m + j) := by
  rw [idx_matProdSpec _ _ _ him hjm]
  refine Finset.sum_congr rfl fun k hk => ?_
  rw [Finset.mem_range] at hk
  rw [idx_add _ _ (quadTL_len hA) him hk, idx_quadTL hA him hk, idx_quadTR hA him,
    idx_quadBR hB hk]

theorem idx_M6 {m : Nat} {A B : Matrix} (hA : wf (2 * m) A) (hB : wf (2 * m) B)
    {i j : Nat} (him : i < m) (hjm : j < m) :
    idx (matProdSpec m (sub_matrix (quadBL m A) (quadTL m A))
        (add_matrix (quadTL m B) (quadTR m B))) i j
      = ∑ k ∈ Finset.range m,
          (idx A (m + i) k - idx A i k) * (idx B k j + idx B k (m + j)) := by
  rw [idx_matProdSpec _ _ _ him hjm]
  refine Finset.sum_congr rfl fun k hk => ?_
  rw [Finset.mem_range] at hk
  rw [idx_sub _ _ (quadBL_len hA) him hk, idx_quadBL hA him hk, idx_quadTL hA him hk,
    idx_add _ _ (quadTL_len hB) hk hjm, idx_quadTL hB hk hjm, idx_quadTR hB hk]

theorem idx_M7 {m : Nat} {A B : Matrix} (hA : wf (2 * m) A) (hB : wf (2 * m) B)
    {i j : Nat} (him : i < m) (hjm : j < m) :
    idx (matProdSpec m (sub_matrix (quadTR m A) (quadBR m A))
        (add_matrix (quadBL m B) (quadBR m B))) i j
      = ∑ k ∈ Finset.range m,
          (idx A i (m + k) - idx A (m + i) (m + k)) * (idx B (m + k) j + idx B (m + k) (m + j)) := by
  rw [idx_matProdSpec _ _ _ him hjm]
  refine Finset.sum_congr rfl fun k hk => ?_
  rw [Finset.mem_range] at hk
  rw [idx_sub _ _ (quadTR_len hA) him hk, idx_quadTR hA him, idx_quadBR hA him,
    idx_add _ _ (quadBL_len hB) hk hjm, idx_quadBL hB hk hjm, idx_quadBR hB hk]

theorem idx_P7 {m : Nat} {A B : Matrix} (hA : wf (2 * m) A) (hB : wf (2 * m) B)
    {i j : Nat} (him : i < m) (hjm : j < m) :
    idx (matProdSpec m (sub_matrix (quadTL m A) (quadBL m A))
        (add_matrix (quadTL m B) (quadTR m B))) i j
      = ∑ k ∈ Finset.range m,
          (idx A i k - idx A (m + i) k) * (idx B k j + idx B k (m + j)) := by
  rw [idx_matProdSpec _ _ _ him hjm]
  refine Finset.sum_congr rfl fun k hk => ?_
  rw [Finset.mem_range] at hk
  rw [idx_sub _ _ (quadTL_len hA) him hk, idx_quadTL hA him hk, idx_quadBL hA him hk,
    idx_add _ _ (quadTL_len hB) hk hjm, idx_quadTL hB hk hjm, idx_quadTR hB hk]

/-! ### Shapes of the four combined quadrants -/

theorem wf_add_spec (m : Nat) (X Y P : Matrix) : wf m (add_matrix (matProdSpec m X Y) P) :=
  wf_add_of (matProdSpec_length m X Y) P

theorem wf_sub_add_add (m : Nat) (X Y P2 P3 P4 : Matrix) :
    wf m (sub_matrix (add_matrix (add_matrix (matProdSpec m X Y) P2) P3) P4) :=
  wf_sub_of (by rw [add_matrix_length, add_matrix_length, matProdSpec_length]) P4

theorem wf_add_sub_add (m : Nat) (X Y P2 P3 P4 : Matrix) :
    wf m (add_matrix (sub_matrix (add_matrix (matProdSpec m X Y) P2) P3) P4) :=
  wf_add_of (by rw [sub_matrix_length, add_matrix_length, matProdSpec_length]) P4

theorem wf_sub_sub_add (m : Nat) (X Y P2 P3 P4 : Matrix) :
    wf m (sub_matrix (sub_matrix (add_matrix (matProdSpec m X Y) P2) P3) P4) :=
  wf_sub_of (by rw [sub_matrix_length, add_matrix_length, matProdSpec_length]) P4

/-! ### Correctness of one Strassen combination step -/

theorem strassen_combine (m : Nat) (A B : Matrix) (hA : wf (2 * m) A) (hB : wf (2 * m) B) :
    joinQuads m
      (sub_matrix (add_matrix (add_matrix
          (matProdSpec m (add_matrix (quadTL m A) (quadBR m A))
            (add_matrix (quadTL m B) (quadBR m B)))
          (matProdSpec m (quadBR m A) (sub_matrix (quadBL m B) (quadTL m B))))
          (matProdSpec m (sub_matrix (quadTR m A) (quadBR m A))
            (add_matrix (quadBL m B) (quadBR m B))))
        (matProdSpec m (add_matrix (quadTL m A) (quadTR m A)) (quadBR m B)))
      (add_matrix (matProdSpec m (quadTL m A) (sub_matrix (quadTR m B) (quadBR m B)))
        (matProdSpec m (add_matrix (quadTL m A) (quadTR m A)) (quadBR m B)))
      (add_matrix (matProdSpec m (add_matrix (quadBL m A) (quadBR m A)) (quadTL m B))
        (matProdSpec m (quadBR m A) (sub_matrix (quadBL m B) (quadTL m B))))
      (add_matrix (sub_matrix (add_matrix
          (matProdSpec m (add_matrix (quadTL m A) (quadBR m A))
            (add_matrix (quadTL m B) (quadBR m B)))
          (matProdSpec m (quadTL m A) (sub_matrix (quadTR m B) (quadBR m B))))
          (matProdSpec m (add_matrix (quadBL m A) (quadBR m A)) (quadTL m B)))
        (matProdSpec m (sub_matrix (quadBL m A) (quadTL m A))
          (add_matrix (quadTL m B) (quadTR m B))))
    = matProdSpec (2 * m) A B := by
  refine matrix_ext (joinQuads_wf (wf_sub_add_add m _ _ _ _ _) (wf_add_spec m _ _ _)
    (wf_add_spec m _ _ _) (wf_add_sub_add m _ _ _ _ _)) (matProdSpec_wf _ _ _) ?_
  intro i j hi hj
  rw [idx_joinQuads (wf_sub_add_add m _ _ _ _ _) (wf_add_spec m _ _ _)
    (wf_add_spec m _ _ _) (wf_add_sub_add m _ _ _ _ _) hi, idx_matProdSpec _ _ _ hi hj]
  by_cases him : i < m <;> by_cases hjm : j < m
  · rw [if_pos him, if_pos hjm,
      idx_sub _ _ (by rw [add_matrix_length, add_matrix_length, matProdSpec_length]) him hjm,
      idx_add _ _ (by rw [add_matrix_length, matProdSpec_length]) him hjm,
      idx_add _ _ (by rw [matProdSpec_length]) him hjm,
      idx_M1 hA hB him hjm, idx_M4 hA hB him hjm, idx_M7 hA hB him hjm, idx_M5 hA hB him hjm,
      two_mul, Finset.sum_range_add]
    exact strassen_sum11 m (fun k => idx A i k) (fun k => idx A i (m + k))
      (fun k => idx A (m + i) (m + k)) (fun k => idx B k j) (fun k => idx B (m + k) j)
      (fun k => idx B (m + k) (m + j))
  · rw [if_pos him, if_neg hjm]
    have hj2 : j - m < m := by omega
    have hjeq : m + (j - m) = j := by omega
    rw [idx_add _ _ (by rw [matProdSpec_length]) him hj2,
      idx_M3 hA hB him hj2, idx_M5 hA hB him hj2, hjeq, two_mul, Finset.sum_range_add]
    exact sum12 m (fun k => idx A i k) (fun k => idx A i (m + k))
      (fun k => idx B k j) (fun k => idx B (m + k) j)
  · rw [if_neg him, if_pos hjm]
    have hi2 : i - m < m := by omega
    have hieq : m + (i - m) = i := by omega
    rw [idx_add _ _ (by rw [matProdSpec_length]) hi2 hjm,
      idx_M2 hA hB hi2 hjm, idx_M4 hA hB hi2 hjm, hieq, two_mul, Finset.sum_range_add]
    exact sum21 m (fun k => idx A i k) (fun k => idx A i (m + k))
      (fun k => idx B k j) (fun k => idx B (m + k) j)
  · rw [if_neg him, if_neg hjm]
    have hi2 : i - m < m := by omega
    have hj2 : j - m < m := by omega
    have hieq : m + (i - m) = i := by omega
    have hjeq : m + (j - m) = j := by omega
    rw [idx_add _ _ (by rw [sub_matrix_length, add_matrix_length, matProdSpec_length]) hi2 hj2,
      idx_sub _ _ (by rw [add_matrix_length, matProdSpec_length]) hi2 hj2,
      idx_add _ _ (by rw [matProdSpec_length]) hi2 hj2,
      idx_M1 hA hB hi2 hj2, idx_M3 hA hB hi2 hj2, idx_M2 hA hB hi2 hj2, idx_M6 hA hB hi2 hj2,
      hieq, hjeq, two_mul, Finset.sum_range_add]
    exact strassen_sum22 m (fun k => idx A (i - m) k) (fun k => idx A i k)
      (fun k => idx A i (m + k)) (fun k => idx B k (j - m)) (fun k => idx B k j)
      (fun k => idx B (m + k) j)

/-! ### Correctness of one Winograd combination step -/

theorem winograd_combine (m : Nat) (A B : Matrix) (hA : wf (2 * m) A) (hB : wf (2 * m) B) :
    joinQuads m
      (add_matrix (sub_matrix (add_matrix
          (matProdSpec m (add_matrix (quadTL m A) (quadBR m A))
            (add_matrix (quadTL m B) (quadBR m B)))
          (matProdSpec m (quadBR m A) (sub_matrix (quadBL m B) (quadTL m B))))
          (matProdSpec m (add_matrix (quadTL m A) (quadTR m A)) (quadBR m B)))
        (matProdSpec m (sub_matrix (quadTR m A) (quadBR m A))
          (add_matrix (quadBL m B) (quadBR m B))))
      (add_matrix (matProdSpec m (quadTL m A) (sub_matrix (quadTR m B) (quadBR m B)))
        (matProdSpec m (add_matrix (quadTL m A) (quadTR m A)) (quadBR m B)))
      (add_matrix (matProdSpec m (add_matrix (quadBL m A) (quadBR m A)) (quadTL m B))
        (matProdSpec m (quadBR m A) (sub_matrix (quadBL m B) (quadTL m B))))
      (sub_matrix (sub_matrix (add_matrix
          (matProdSpec m (add_matrix (quadTL m A) (quadBR m A))
            (add_matrix (quadTL m B) (quadBR m B)))
          (matProdSpec m (quadTL m A) (sub_matrix (quadTR m B) (quadBR m B))))
          (matProdSpec m (add_matrix (quadBL m A) (quadBR m A)) (quadTL m B)))
        (matProdSpec m (sub_matrix (quadTL m A) (quadBL m A))
          (add_matrix (quadTL m B) (quadTR m B))))
    = matProdSpec (2 * m) A B := by
  refine matrix_ext (joinQuads_wf (wf_add_sub_add m _ _ _ _ _) (wf_add_spec m _ _ _)
    (wf_add_spec m _ _ _) (wf_sub_sub_add m _ _ _ _ _)) (matProdSpec_wf _ _ _) ?_
  intro i j hi hj
  rw [idx_joinQuads (wf_add_sub_add m _ _ _ _ _) (wf_add_spec m _ _ _)
    (wf_add_spec m _ _ _) (wf_sub_sub_add m _ _ _ _ _) hi, idx_matProdSpec _ _ _ hi hj]
  by_cases him : i < m <;> by_cases hjm : j < m
  · rw [if_pos him, if_pos hjm,
      idx_add _ _ (by rw [sub_matrix_length, add_matrix_length, matProdSpec_length]) him hjm,
      idx_sub _ _ (by rw [add_matrix_length, matProdSpec_length]) him hjm,
      idx_add _ _ (by rw [matProdSpec_length]) him hjm,
      idx_M1 hA hB him hjm, idx_M4 hA hB him hjm, idx_M5 hA hB him hjm, idx_M7 hA hB him hjm,
      two_mul, Finset.sum_range_add]
    exact winograd_sum11 m (fun k => idx A i k) (fun k => idx A i (m + k))
      (fun k => idx A (m + i) (m + k)) (fun k => idx B k j) (fun k => idx B (m + k) j)
      (fun k => idx B (m + k) (m + j))
  · rw [if_pos him, if_neg hjm]
    have hj2 : j - m < m := by omega
    have hjeq : m + (j - m) = j := by omega
    rw [idx_add _ _ (by rw [matProdSpec_length]) him hj2,
      idx_M3 hA hB him hj2, idx_M5 hA hB him hj2, hjeq, two_mul, Finset.sum_range_add]
    exact sum12 m (fun k => idx A i k) (fun k => idx A i (m + k))
      (fun k => idx B k j) (fun k => idx B (m + k) j)
  · rw [if_neg him, if_pos hjm]
    have hi2 : i - m < m := by omega
    have hieq : m + (i - m) = i := by omega
    rw [idx_add _ _ (by rw [matProdSpec_length]) hi2 hjm,
      idx_M2 hA hB hi2 hjm, idx_M4 hA hB hi2 hjm, hieq, two_mul, Finset.sum_range_add]
    exact sum21 m (fun k => idx A i k) (fun k => idx A i (m + k))
      (fun k => idx B k j) (fun k => idx B (m + k) j)
  · rw [if_neg him, if_neg hjm]
    have hi2 : i - m < m := by omega
    have hj2 : j - m < m := by omega
    have hieq : m + (i - m) = i := by omega
    have hjeq : m + (j - m) = j := by omega
    rw [idx_sub _ _ (by rw [sub_matrix_length, add_matrix_length, matProdSpec_length]) hi2 hj2,
      idx_sub _ _ (by rw [add_matrix_length, matProdSpec_length]) hi2 hj2,
      idx_add _ _ (by rw [matProdSpec_length]) hi2 hj2,
      idx_M1 hA hB hi2 hj2, idx_M3 hA hB hi2 hj2, idx_M2 hA hB hi2 hj2, idx_P7 hA hB hi2 hj2,
      hieq, hjeq, two_mul, Finset.sum_range_add]
    exact winograd_sum22 m (fun k => idx A (i - m) k) (fun k => idx A i k)
      (fun k => idx A i (m + k)) (fun k => idx B k (j - m)) (fun k => idx B k j)
      (fun k => idx B (m + k) j)

/-! ### Correctness of the recursive cores -/

theorem strassenGo_pow2 (cutoff : Nat) (hc : 1 ≤ cutoff) :
    ∀ k fuel (A B : Matrix), wf (2 ^ k) A → wf (2 ^ k) B →
      strassenGo fuel A B cutoff = matProdSpec (2 ^ k) A B := by
  intro k
  induction k with
  | zero =>
    intro fuel A B hA hB
    cases fuel with
    | zero => rw [strassenGo, matmul_classic_eq_spec, hA.1]
    | succ fuel =>
      rw [strassenGo, if_pos (by rw [hA.1]; simpa using hc), matmul_classic_eq_spec, hA.1]
  | succ k ih =>
    intro fuel A B hA hB
    cases fuel with
    | zero => rw [strassenGo, matmul_classic_eq_spec, hA.1]
    | succ fuel =>
      rw [strassenGo]
      by_cases hcut : A.length ≤ cutoff
      · rw [if_pos hcut, matmul_classic_eq_spec, hA.1]
      · rw [if_neg hcut]
        have hA2 : wf (2 * 2 ^ k) A := wf_cast hA (pow_succ' 2 k)
        have hB2 : wf (2 * 2 ^ k) B := wf_cast hB (pow_succ' 2 k)
        have hm : A.length / 2 = 2 ^ k := by rw [hA.1, pow_succ']; omega
        simp only [hm]
        rw [ih fuel _ _ (wf_add_of (quadTL_len hA2) _) (wf_add_of (quadTL_len hB2) _),
          ih fuel _ _ (wf_add_of (quadBL_len hA2) _) (quadTL_wf hB2),
          ih fuel _ _ (quadTL_wf hA2) (wf_sub_of (quadTR_len hB2) _),
          ih fuel _ _ (quadBR_wf hA2) (wf_sub_of (quadBL_len hB2) _),
          ih fuel _ _ (wf_add_of (quadTL_len hA2) _) (quadBR_wf hB2),
          ih fuel _ _ (wf_sub_of (quadBL_len hA2) _) (wf_add_of (quadTL_len hB2) _),
          ih fuel _ _ (wf_sub_of (quadTR_len hA2) _) (wf_add_of (quadBL_len hB2) _)]
        have hcomb := strassen_combine (2 ^ k) A B hA2 hB2
        rw [← pow_succ'] at hcomb
        exact hcomb

theorem _strassen_core_pow2 {k : Nat} (cutoff : Nat) (hc : 1 ≤ cutoff) (A B : Matrix)
    (hA : wf (2 ^ k) A) (hB : wf (2 ^ k) B) :
    _strassen_core A B cutoff = matProdSpec (2 ^ k) A B :=
  strassenGo_pow2 cutoff hc k A.length A B hA hB

theorem winogradGo_pow2 (cutoff : Nat) (hc : 1 ≤ cutoff) :
    ∀ k fuel (A B : Matrix), wf (2 ^ k) A → wf (2 ^ k) B →
      winogradGo fuel A B cutoff = matProdSpec (2 ^ k) A B := by
  intro k
  induction k with
  | zero =>
    intro fuel A B hA hB
    cases fuel with
    | zero => rw [winogradGo, matmul_classic_eq_spec, hA.1]
    | succ fuel =>
      rw [winogradGo, if_pos (by rw [hA.1]; simpa using hc), matmul_classic_eq_spec, hA.1]
  | succ k ih =>
    intro fuel A B hA hB
    cases fuel with
    | zero => rw [winogradGo, matmul_classic_eq_spec, hA.1]
    | succ fuel =>
      rw [winogradGo]
      by_cases hcut : A.length ≤ cutoff
      · rw [if_pos hcut, matmul_classic_eq_spec, hA.1]
      · rw [if_neg hcut]
        have hA2 : wf (2 * 2 ^ k) A := wf_cast hA (pow_succ' 2 k)
        have hB2 : wf (2 * 2 ^ k) B := wf_cast hB (pow_succ' 2 k)
        have hm : A.length / 2 = 2 ^ k := by rw [hA.1, pow_succ']; omega
        simp only [hm]
        rw [ih fuel _ _ (quadTL_wf hA2) (wf_sub_of (quadTR_len hB2) _),
          ih fuel _ _ (wf_add_of (quadTL_len hA2) _) (quadBR_wf hB2),
          ih fuel _ _ (wf_add_of (quadBL_len hA2) _) (quadTL_wf hB2),
          ih fuel _ _ (quadBR_wf hA2) (wf_sub_of (quadBL_len hB2) _),
          ih fuel _ _ (wf_add_of (quadTL_len hA2) _) (wf_add_of (quadTL_len hB2) _),
          ih fuel _ _ (wf_sub_of (quadTR_len hA2) _) (wf_add_of (quadBL_len hB2) _),
          ih fuel _ _ (wf_sub_of (quadTL_len hA2) _) (wf_add_of (quadTL_len hB2) _)]
        have hcomb := winograd_combine (2 ^ k) A B hA2 hB2
        rw [← pow_succ'] at hcomb
        exact hcomb

theorem _strassen_winograd_core_pow2 {k : Nat} (cutoff : Nat) (hc : 1 ≤ cutoff)
    (A B : Matrix) (hA : wf (2 ^ k) A) (hB : wf (2 ^ k) B) :
    _strassen_winograd_core A B cutoff = matProdSpec (2 ^ k) A B :=
  winogradGo_pow2 cutoff hc k A.length A B hA hB

theorem answerGo_correct (cutoff : Nat) (hc : 1 ≤ cutoff) :
    ∀ n, ∀ fuel (A B : Matrix), wf n A → wf n B →
      answerGo fuel A B cutoff = matProdSpec n A B := by
  intro n
  induction n using Nat.strong_induction_on with
  | _ n ih =>
    intro fuel A B hA hB
    cases fuel with
    | zero => rw [answerGo, matmul_classic_eq_spec, hA.1]
    | succ fuel =>
      rw [answerGo]
      by_cases hcut : A.length ≤ cutoff
      · rw [if_pos hcut, matmul_classic_eq_spec, hA.1]
      · rw [if_neg hcut]
        by_cases hodd : A.length % 2 = 1
        · rw [if_pos hodd, matmul_classic_eq_spec, hA.1]
        · rw [if_neg hodd]
          have hlen : 2 ≤ n := by rw [← hA.1]; omega
          have heven : n % 2 = 0 := by rw [← hA.1]; omega
          have h2m : n = 2 * (n / 2) := by omega
          have hmlt : n / 2 < n := by omega
          have hA2 : wf (2 * (n / 2)) A := wf_cast hA h2m
          have hB2 : wf (2 * (n / 2)) B := wf_cast hB h2m
          have hm : A.length / 2 = n / 2 := by rw [hA.1]
          simp only [hm]
          rw [ih (n / 2) hmlt fuel _ _ (wf_add_of (quadTL_len hA2) _) (wf_add_of (quadTL_len hB2) _),
            ih (n / 2) hmlt fuel _ _ (wf_add_of (quadBL_len hA2) _) (quadTL_wf hB2),
            ih (n / 2) hmlt fuel _ _ (quadTL_wf hA2) (wf_sub_of (quadTR_len hB2) _),
            ih (n / 2) hmlt fuel _ _ (quadBR_wf hA2) (wf_sub_of (quadBL_len hB2) _),
            ih (n / 2) hmlt fuel _ _ (wf_add_of (quadTL_len hA2) _) (quadBR_wf hB2),
            ih (n / 2) hmlt fuel _ _ (wf_sub_of (quadBL_len hA2) _) (wf_add_of (quadTL_len hB2) _),
            ih (n / 2) hmlt fuel _ _ (wf_sub_of (quadTR_len hA2) _) (wf_add_of (quadBL_len hB2) _)]
          have hcomb := strassen_combine (n / 2) A B hA2 hB2
          rw [← h2m] at hcomb
          exact hcomb

theorem strassen_core_correct (n cutoff : Nat) (hc : 1 ≤ cutoff) (A B : Matrix)
    (hA : wf n A) (hB : wf n B) : strassen_core A B cutoff = matProdSpec n A B :=
  answerGo_correct cutoff hc n A.length A B hA hB

/-! ### The test `n & (n - 1) == 0` detects powers of two -/

theorem land_odd (m : Nat) : (2 * m + 1) &&& (2 * m) = 2 * m := by
  apply Nat.eq_of_testBit_eq
  intro i
  rw [Nat.testBit_land]
  cases i with
  | zero =>
    rw [Nat.testBit_zero, Nat.testBit_zero]
    have h1 : (2 * m + 1) % 2 = 1 := by omega
    have h2 : 2 * m % 2 = 0 := by omega
    rw [h1, h2]
    rfl
  | succ i =>
    rw [Nat.testBit_succ, Nat.testBit_succ]
    have h1 : (2 * m + 1) / 2 = m := by omega
    have h2 : 2 * m / 2 = m := by omega
    rw [h1, h2, Bool.and_self]

theorem land_even (m : Nat) (hm : 0 < m) :
    (2 * m) &&& (2 * m - 1) = 2 * (m &&& (m - 1)) := by
  apply Nat.eq_of_testBit_eq
  intro i
  rw [Nat.testBit_land]
  cases i with
  | zero =>
    rw [Nat.testBit_zero, Nat.testBit_zero, Nat.testBit_zero]
    have h1 : 2 * m % 2 = 0 := by omega
    have h2 : 2 * (m &&& (m - 1)) % 2 = 0 := by omega
    rw [h1, h2]
    rfl
  | succ i =>
    rw [Nat.testBit_succ, Nat.testBit_succ, Nat.testBit_succ]
    have h1 : 2 * m / 2 = m := by omega
    have h2 : (2 * m - 1) / 2 = m - 1 := by omega
    have h3 : 2 * (m &&& (m - 1)) / 2 = m &&& (m - 1) := by omega
    rw [h1, h2, h3, Nat.testBit_land]

theorem land_pred_pow2 : ∀ n, 0 < n → n &&& (n - 1) = 0 → ∃ k, n = 2 ^ k := by
  intro n
  induction n using Nat.strong_induction_on with
  | _ n ih =>
    intro hpos hland
    rcases Nat.even_or_odd n with he | ho
    · obtain ⟨m, hm⟩ := he
      have hn2 : n = 2 * m := by omega
      have hmpos : 0 < m := by omega
      rw [hn2, land_even m hmpos] at hland
      have hml : m &&& (m - 1) = 0 := by omega
      obtain ⟨k, hk⟩ := ih m (by omega) hmpos hml
      exact ⟨k + 1, by rw [hn2, hk, pow_succ']⟩
    · obtain ⟨m, hm⟩ := ho
      by_cases h1 : n = 1
      · exact ⟨0, by rw [h1, pow_zero]⟩
      · have hmpos : 0 < m := by omega
        have e : 2 * m + 1 - 1 = 2 * m := by omega
        rw [hm, e, land_odd] at hland
        omega

theorem pow2_land (k : Nat) : (2 ^ k) &&& (2 ^ k - 1) = 0 := by
  apply Nat.eq_of_testBit_eq
  intro i
  rw [Nat.testBit_land, Nat.zero_testBit]
  rcases eq_or_ne k i with rfl | hne
  · have h1 : 2 ^ k - 1 < 2 ^ k := by
      have h2 : 0 < 2 ^ k := Nat.two_pow_pos k
      omega
    rw [Nat.testBit_lt_two_pow h1, Bool.and_false]
  · rw [Nat.testBit_two_pow]
    simp [hne]

theorem le_pow_size (n : Nat) : n ≤ 2 ^ (n - 1).size := by
  have := Nat.lt_size_self (n - 1)
  omega

/-! ### Padding and cropping -/

theorem padMat_wf {n : Nat} {A : Matrix} (hA : wf n A) {M : Nat} (hM : n ≤ M) :
    wf M (padMat M n A) := by
  constructor
  · simp [padMat, hA.1]
    omega
  · intro row hrow
    simp only [padMat, List.mem_append, List.mem_map, List.mem_range] at hrow
    rcases hrow with ⟨r, hr, rfl⟩ | ⟨i, _, rfl⟩
    · have := hA.2 r hr
      simp [this]
      omega
    · simp

theorem idx_padMat {n : Nat} {A : Matrix} (hA : wf n A) (M i j : Nat) :
    idx (padMat M n A) i j = if i < n ∧ j < n then idx A i j else 0 := by
  unfold idx padMat
  rw [getD_append]
  by_cases hi : i < n
  · have hiA : i < (A.map fun row => row ++ List.replicate (M - n) 0).length := by
      simp [hA.1]
      exact hi
    have hrl : (A.getD i []).length = n := hA.2 _ (getD_mem [] (by rw [hA.1]; exact hi))
    rw [if_pos hiA, getD_map_len _ _ (by rw [hA.1]; exact hi) [] [], getD_append, hrl]
    by_cases hj : j < n
    · rw [if_pos hj, if_pos ⟨hi, hj⟩]
    · rw [if_neg hj, if_neg (fun hcon => hj hcon.2), getD_replicate]
      split <;> rfl
  · have hiA : ¬ i < (A.map fun row => row ++ List.replicate (M - n) 0).length := by
      simp [hA.1]
      omega
    rw [if_neg hiA, if_neg (fun hcon => hi hcon.1), getD_map_range]
    split
    · rw [getD_replicate]
      split <;> rfl
    · rfl

theorem cropTo_wf {M : Nat} {C : Matrix} (hC : wf M C) {n : Nat} (hn : n ≤ M) :
    wf n (cropTo n C) := by
  constructor
  · simp [cropTo, hC.1]
    omega
  · intro row hrow
    simp only [cropTo, List.mem_map] at hrow
    obtain ⟨r, hr, rfl⟩ := hrow
    have := hC.2 r (List.mem_of_mem_take hr)
    simp [this]
    omega

theorem idx_cropTo {M : Nat} {C : Matrix} (hC : wf M C) {n i j : Nat}
    (hi : i < n) (hj : j < n) (hn : n ≤ M) : idx (cropTo n C) i j = idx C i j := by
  unfold idx cropTo
  have hit : i < (C.take n).length := by
    simp [hC.1]
    omega
  rw [getD_map_len _ _ hit [] [], getD_take _ _ _ _ hj, getD_take _ _ _ _ hi]

theorem crop_pad (n M : Nat) (A B : Matrix) (hA : wf n A) (hB : wf n B)
    (hnM : n ≤ M) :
    cropTo n (matProdSpec M (padMat M n A) (padMat M n B)) = matmul_classic A B := by
  have hcl : wf n (matmul_classic A B) := wf_cast (matmul_classic_wf A B) hA.1
  refine matrix_ext (cropTo_wf (matProdSpec_wf M _ _) hnM) hcl ?_
  intro i j hi hj
  rw [idx_cropTo (matProdSpec_wf M _ _) hi hj hnM,
    idx_matProdSpec M (padMat M n A) (padMat M n B) (by omega) (by omega),
    matmul_classic_eq_spec, hA.1, idx_matProdSpec n A B hi hj]
  have hvan : ∀ x ∈ Finset.range M, x ∉ Finset.range n →
      idx (padMat M n A) i x * idx (padMat M n B) x j = 0 := by
    intro x _ hxn
    rw [Finset.mem_range] at hxn
    rw [idx_padMat hA, if_neg (fun hcon => hxn hcon.2), zero_mul]
  rw [← Finset.sum_subset (Finset.range_subset.mpr hnM) hvan]
  refine Finset.sum_congr rfl fun k hk => ?_
  rw [Finset.mem_range] at hk
  rw [idx_padMat hA, idx_padMat hB, if_pos ⟨hi, hk⟩, if_pos ⟨hk, hj⟩]

/-! ### Entry-point correctness -/

theorem matmul_strassen_ok (n cutoff : Nat) (hc : 1 ≤ cutoff) (A B : Matrix)
    (hA : wf n A) (hB : wf n B) :
    matmul_strassen A B cutoff = Except.ok (matmul_classic A B) := by
  by_cases h0 : n = 0
  · subst h0
    have hAe : A = [] := List.length_eq_zero.mp hA.1
    have hBe : B = [] := List.length_eq_zero.mp hB.1
    subst hAe
    subst hBe
    rfl
  · have hA0 : (A.getD 0 []).length = n := hA.2 _ (getD_mem [] (by rw [hA.1]; omega))
    have hB0 : (B.getD 0 []).length = n := hB.2 _ (getD_mem [] (by rw [hB.1]; omega))
    have hval : A.length = B.length ∧ A.length = (A.getD 0 []).length ∧
        A.length = (B.getD 0 []).length := by
      rw [hA.1, hB.1, hA0, hB0]
      exact ⟨rfl, rfl, rfl⟩
    simp only [matmul_strassen]
    rw [if_neg (by rw [hA.1]; exact h0), if_neg (not_not_intro hval)]
    by_cases hp2 : A.length &&& (A.length - 1) ≠ 0
    · rw [if_pos hp2, hA.1, Nat.one_shiftLeft]
      have hnM : n ≤ 2 ^ (n - 1).size := le_pow_size n
      rw [_strassen_core_pow2 cutoff hc _ _ (padMat_wf hA hnM) (padMat_wf hB hnM),
        crop_pad n _ A B hA hB hnM]
    · rw [if_neg hp2]
      obtain ⟨k, hk⟩ := land_pred_pow2 A.length (by rw [hA.1]; omega) (not_not.mp hp2)
      have hnk : n = 2 ^ k := by rw [← hA.1, hk]
      rw [_strassen_core_pow2 cutoff hc _ _ (wf_cast hA hnk) (wf_cast hB hnk),
        matmul_classic_eq_spec, hk]

theorem matmul_winograd_ok (n cutoff : Nat) (hc : 1 ≤ cutoff) (A B : Matrix)
    (hA : wf n A) (hB : wf n B) :
    matmul_strassen_winograd A B cutoff = Except.ok (matmul_classic A B) := by
  by_cases h0 : n = 0
  · subst h0
    have hAe : A = [] := List.length_eq_zero.mp hA.1
    have hBe : B = [] := List.length_eq_zero.mp hB.1
    subst hAe
    subst hBe
    rfl
  · have hA0 : (A.getD 0 []).length = n := hA.2 _ (getD_mem [] (by rw [hA.1]; omega))
    have hB0 : (B.getD 0 []).length = n := hB.2 _ (getD_mem [] (by rw [hB.1]; omega))
    have hval : A.length = B.length ∧ A.length = (A.getD 0 []).length ∧
        A.length = (B.getD 0 []).length := by
      rw [hA.1, hB.1, hA0, hB0]
      exact ⟨rfl, rfl, rfl⟩
    simp only [matmul_strassen_winograd]
    rw [if_neg (by rw [hA.1]; exact h0), if_neg (not_not_intro hval)]
    by_cases hp2 : A.length &&& (A.length - 1) ≠ 0
    · rw [if_pos hp2, hA.1, Nat.one_shiftLeft]
      have hnM : n ≤ 2 ^ (n - 1).size := le_pow_size n
      rw [_strassen_winograd_core_pow2 cutoff hc _ _ (padMat_wf hA hnM) (padMat_wf hB hnM),
        crop_pad n _ A B hA hB hnM]
    · rw [if_neg hp2]
      obtain ⟨k, hk⟩ := land_pred_pow2 A.length (by rw [hA.1]; omega) (not_not.mp hp2)
      have hnk : n = 2 ^ k := by rw [← hA.1, hk]
      rw [_strassen_winograd_core_pow2 cutoff hc _ _ (wf_cast hA hnk) (wf_cast hB hnk),
        matmul_classic_eq_spec, hk]

theorem answer_matmul_strassen_ok (n cutoff : Nat) (hc : 1 ≤ cutoff) (A B : Matrix)
    (hA : wf n A) (hB : wf n B) :
    Answer.matmul_strassen A B cutoff = Except.ok (matmul_classic A B) := by
  by_cases h0 : n = 0
  · subst h0
    have hAe : A = [] := List.length_eq_zero.mp hA.1
    have hBe : B = [] := List.length_eq_zero.mp hB.1
    subst hAe
    subst hBe
    rfl
  · have hA0 : (A.getD 0 []).length = n := hA.2 _ (getD_mem [] (by rw [hA.1]; omega))
    have hB0 : (B.getD 0 []).length = n := hB.2 _ (getD_mem [] (by rw [hB.1]; omega))
    simp only [Answer.matmul_strassen]
    rw [if_neg (by rw [hA.1]; exact h0),
      if_neg (by push_neg; rw [hA.1, hB.1, hA0, hB0]; exact ⟨rfl, rfl, rfl⟩),
      strassen_core_correct n cutoff hc A B hA hB, matmul_classic_eq_spec, hA.1]

/-! ### The padding branch of the entry points -/

theorem matmul_strassen_pad_eq (n cutoff : Nat) (A B : Matrix) (hn : 1 ≤ n)
    (hp2 : n &&& (n - 1) ≠ 0) (hA : wf n A) (hB : wf n B) :
    matmul_strassen A B cutoff = Except.ok (cropTo n (_strassen_core
      (padMat (2 ^ (n - 1).size) n A) (padMat (2 ^ (n - 1).size) n B) cutoff)) := by
  have hA0 : (A.getD 0 []).length = n := hA.2 _ (getD_mem [] (by rw [hA.1]; omega))
  have hB0 : (B.getD 0 []).length = n := hB.2 _ (getD_mem [] (by rw [hB.1]; omega))
  have hval : A.length = B.length ∧ A.length = (A.getD 0 []).length ∧
      A.length = (B.getD 0 []).length := by
    rw [hA.1, hB.1, hA0, hB0]
    exact ⟨rfl, rfl, rfl⟩
  simp only [matmul_strassen]
  rw [if_neg (by rw [hA.1]; omega), if_neg (not_not_intro hval),
    if_pos (by rw [hA.1]; exact hp2), hA.1, Nat.one_shiftLeft]

theorem matmul_winograd_pad_eq (n cutoff : Nat) (A B : Matrix) (hn : 1 ≤ n)
    (hp2 : n &&& (n - 1) ≠ 0) (hA : wf n A) (hB : wf n B) :
    matmul_strassen_winograd A B cutoff = Except.ok (cropTo n (_strassen_winograd_core
      (padMat (2 ^ (n - 1).size) n A) (padMat (2 ^ (n - 1).size) n B) cutoff)) := by
  have hA0 : (A.getD 0 []).length = n := hA.2 _ (getD_mem [] (by rw [hA.1]; omega))
  have hB0 : (B.getD 0 []).length = n := hB.2 _ (getD_mem [] (by rw [hB.1]; omega))
  have hval : A.length = B.length ∧ A.length = (A.getD 0 []).length ∧
      A.length = (B.getD 0 []).length := by
    rw [hA.1, hB.1, hA0, hB0]
    exact ⟨rfl, rfl, rfl⟩
  simp only [matmul_strassen_winograd]
  rw [if_neg (by rw [hA.1]; omega), if_neg (not_not_intro hval),
    if_pos (by rw [hA.1]; exact hp2), hA.1, Nat.one_shiftLeft]

theorem padded_strassen_eq_classic (n cutoff : Nat) (A B : Matrix)
    (hc : 1 ≤ cutoff) (hA : wf n A) (hB : wf n B) :
    cropTo n (_strassen_core (padMat (2 ^ (n - 1).size) n A)
      (padMat (2 ^ (n - 1).size) n B) cutoff) = matmul_classic A B := by
  have hnM : n ≤ 2 ^ (n - 1).size := le_pow_size n
  rw [_strassen_core_pow2 cutoff hc _ _ (padMat_wf hA hnM) (padMat_wf hB hnM),
    crop_pad n _ A B hA hB hnM]

theorem padded_winograd_eq_classic (n cutoff : Nat) (A B : Matrix)
    (hc : 1 ≤ cutoff) (hA : wf n A) (hB : wf n B) :
    cropTo n (_strassen_winograd_core (padMat (2 ^ (n - 1).size) n A)
      (padMat (2 ^ (n - 1).size) n B) cutoff) = matmul_classic A B := by
  have hnM : n ≤ 2 ^ (n - 1).size := le_pow_size n
  rw [_strassen_winograd_core_pow2 cutoff hc _ _ (padMat_wf hA hnM) (padMat_wf hB hnM),
    crop_pad n _ A B hA hB hnM]

/-! ## Claim C1: both divide-and-conquer entry points agree with the
classical algorithm -/

/-- C1: for every pair of square integer matrices `A`, `B` of equal order
`n ≥ 0` and every cutoff ≥ 1, `matmul_strassen` and
`matmul_strassen_winograd` both return exactly `matmul_classic A B`. -/
theorem strassen_winograd_eq_classic (n cutoff : Nat) (A B : Matrix)
    (hc : 1 ≤ cutoff) (hA : wf n A) (hB : wf n B) :
    matmul_strassen A B cutoff = Except.ok (matmul_classic A B) ∧
      matmul_strassen_winograd A B cutoff = Except.ok (matmul_classic A B) :=
  ⟨matmul_strassen_ok n cutoff hc A B hA hB, matmul_winograd_ok n cutoff hc A B hA hB⟩

/-- Witness for C1 at `A = B = [[1,2],[3,4]]`, cutoff 1. -/
theorem strassen_winograd_eq_classic_witness :
    matmul_strassen [[1, 2], [3, 4]] [[1, 2], [3, 4]] 1
        = Except.ok (matmul_classic [[1, 2], [3, 4]] [[1, 2], [3, 4]]) ∧
      matmul_strassen_winograd [[1, 2], [3, 4]] [[1, 2], [3, 4]] 1
        = Except.ok (matmul_classic [[1, 2], [3, 4]] [[1, 2], [3, 4]]) :=
  strassen_winograd_eq_classic 2 1 [[1, 2], [3, 4]] [[1, 2], [3, 4]]
    (by decide) (by decide) (by decide)

/-! ## Claim C2: the classical loop computes the standard product -/

/-- C2: for square matrices of equal order `n`, `matmul_classic` returns
the matrix with entries `C[i][j] = ∑ k < n, A[i][k] * B[k][j]`
(`matProdSpec`, stated from the spec's words). -/
theorem matmul_classic_computes_product (n : Nat) (A B : Matrix)
    (hA : wf n A) (hB : wf n B) : matmul_classic A B = matProdSpec n A B := by
  rw [matmul_classic_eq_spec, hA.1]

/-- Witness for C2 at `A = [[1,2],[3,4]]`, `B = [[5,6],[7,8]]`. -/
theorem matmul_classic_computes_product_witness :
    matmul_classic [[1, 2], [3, 4]] [[5, 6], [7, 8]]
      = matProdSpec 2 [[1, 2], [3, 4]] [[5, 6], [7, 8]] :=
  matmul_classic_computes_product 2 [[1, 2], [3, 4]] [[5, 6], [7, 8]]
    (by decide) (by decide)

/-! ## Claim C3: padding to the next power of two is exact -/

/-- C3: for `n ≥ 1` not a power of two, both entry points pad the operands
with zeros to order `m = 2 ^ (n-1).bit_length()`, run the recursive core on
the padded matrices, crop the result back to order `n`, and the cropped
result equals the exact classical product. -/
theorem padding_crop_exact (n cutoff : Nat) (A B : Matrix) (hn : 1 ≤ n)
    (hnp2 : ∀ k, n ≠ 2 ^ k) (hc : 1 ≤ cutoff) (hA : wf n A) (hB : wf n B) :
    matmul_strassen A B cutoff =
        Except.ok (cropTo n (_strassen_core (padMat (2 ^ (n - 1).size) n A)
          (padMat (2 ^ (n - 1).size) n B) cutoff)) ∧
      cropTo n (_strassen_core (padMat (2 ^ (n - 1).size) n A)
          (padMat (2 ^ (n - 1).size) n B) cutoff) = matmul_classic A B ∧
      matmul_strassen_winograd A B cutoff =
        Except.ok (cropTo n (_strassen_winograd_core (padMat (2 ^ (n - 1).size) n A)
          (padMat (2 ^ (n - 1).size) n B) cutoff)) ∧
      cropTo n (_strassen_winograd_core (padMat (2 ^ (n - 1).size) n A)
          (padMat (2 ^ (n - 1).size) n B) cutoff) = matmul_classic A B := by
  have hp2 : n &&& (n - 1) ≠ 0 := by
    intro hz
    obtain ⟨k, hk⟩ := land_pred_pow2 n (by omega) hz
    exact hnp2 k hk
  exact ⟨matmul_strassen_pad_eq n cutoff A B hn hp2 hA hB,
    padded_strassen_eq_classic n cutoff A B hc hA hB,
    matmul_winograd_pad_eq n cutoff A B hn hp2 hA hB,
    padded_winograd_eq_classic n cutoff A B hc hA hB⟩

/-- Witness for C3 at `n = 3` (the spec's identity scenario), cutoff 1. -/
theorem padding_crop_exact_witness :
    matmul_strassen [[2, 0, 1], [1, 3, 2], [0, 1, 4]] [[1, 0, 0], [0, 1, 0], [0, 0, 1]] 1 =
        Except.ok (cropTo 3 (_strassen_core
          (padMat (2 ^ ((3 : Nat) - 1).size) 3 [[2, 0, 1], [1, 3, 2], [0, 1, 4]])
          (padMat (2 ^ ((3 : Nat) - 1).size) 3 [[1, 0, 0], [0, 1, 0], [0, 0, 1]]) 1)) ∧
      cropTo 3 (_strassen_core
          (padMat (2 ^ ((3 : Nat) - 1).size) 3 [[2, 0, 1], [1, 3, 2], [0, 1, 4]])
          (padMat (2 ^ ((3 : Nat) - 1).size) 3 [[1, 0, 0], [0, 1, 0], [0, 0, 1]]) 1)
        = matmul_classic [[2, 0, 1], [1, 3, 2], [0, 1, 4]] [[1, 0, 0], [0, 1, 0], [0, 0, 1]] ∧
      matmul_strassen_winograd [[2, 0, 1], [1, 3, 2], [0, 1, 4]]
          [[1, 0, 0], [0, 1, 0], [0, 0, 1]] 1 =
        Except.ok (cropTo 3 (_strassen_winograd_core
          (padMat (2 ^ ((3 : Nat) - 1).size) 3 [[2, 0, 1], [1, 3, 2], [0, 1, 4]])
          (padMat (2 ^ ((3 : Nat) - 1).size) 3 [[1, 0, 0], [0, 1, 0], [0, 0, 1]]) 1)) ∧
      cropTo 3 (_strassen_winograd_core
          (padMat (2 ^ ((3 : Nat) - 1).size) 3 [[2, 0, 1], [1, 3, 2], [0, 1, 4]])
          (padMat (2 ^ ((3 : Nat) - 1).size) 3 [[1, 0, 0], [0, 1, 0], [0, 0, 1]]) 1)
        = matmul_classic [[2, 0, 1], [1, 3, 2], [0, 1, 4]]
            [[1, 0, 0], [0, 1, 0], [0, 0, 1]] :=
  padding_crop_exact 3 1 [[2, 0, 1], [1, 3, 2], [0, 1, 4]] [[1, 0, 0], [0, 1, 0], [0, 0, 1]]
    (by decide)
    (fun k => by
      rcases k with _ | _ | k
      · decide
      · decide
      · have h4 : 4 ≤ 2 ^ (k + 2) := by
          calc (4 : Nat) = 2 ^ 2 := by norm_num
          _ ≤ 2 ^ (k + 2) := Nat.pow_le_pow_right (by norm_num) (by omega)
        omega)
    (by decide) (by decide) (by decide)

/-! ## Claim C4: the cutoff never changes the result -/

/-- C4: for fixed square `A`, `B` of order `n` and any two cutoffs
`1 ≤ c1, c2 ≤ n`, every entry point returns the same result at `c1` and
`c2` (benchmark Strassen, benchmark Winograd, and `answer.py`'s Strassen). -/
theorem cutoff_invariance (n c1 c2 : Nat) (A B : Matrix)
    (h1 : 1 ≤ c1) (h1n : c1 ≤ n) (h2 : 1 ≤ c2) (h2n : c2 ≤ n)
    (hA : wf n A) (hB : wf n B) :
    matmul_strassen A B c1 = matmul_strassen A B c2 ∧
      matmul_strassen_winograd A B c1 = matmul_strassen_winograd A B c2 ∧
      Answer.matmul_strassen A B c1 = Answer.matmul_strassen A B c2 := by
  refine ⟨?_, ?_, ?_⟩
  · rw [matmul_strassen_ok n c1 h1 A B hA hB, matmul_strassen_ok n c2 h2 A B hA hB]
  · rw [matmul_winograd_ok n c1 h1 A B hA hB, matmul_winograd_ok n c2 h2 A B hA hB]
  · rw [answer_matmul_strassen_ok n c1 h1 A B hA hB,
      answer_matmul_strassen_ok n c2 h2 A B hA hB]

/-- Witness for C4 at `A = B = [[1,2],[3,4]]`, cutoffs 1 and 2. -/
theorem cutoff_invariance_witness :
    matmul_strassen [[1, 2], [3, 4]] [[1, 2], [3, 4]] 1
        = matmul_strassen [[1, 2], [3, 4]] [[1, 2], [3, 4]] 2 ∧
      matmul_strassen_winograd [[1, 2], [3, 4]] [[1, 2], [3, 4]] 1
        = matmul_strassen_winograd [[1, 2], [3, 4]] [[1, 2], [3, 4]] 2 ∧
      Answer.matmul_strassen [[1, 2], [3, 4]] [[1, 2], [3, 4]] 1
        = Answer.matmul_strassen [[1, 2], [3, 4]] [[1, 2], [3, 4]] 2 :=
  cutoff_invariance 2 1 2 [[1, 2], [3, 4]] [[1, 2], [3, 4]]
    (by decide) (by decide) (by decide) (by decide) (by decide) (by decide)

/-! ## Claim C5: odd-order fallback -/

/-- C5 counterexample: `matrix_benchmark.py`'s `_strassen_core` does NOT
fall back to the classical algorithm on an odd order above the cutoff
(here `n = 3 > cutoff = 1`): it splits anyway and returns a result that
differs from `matmul_classic` (a 2-row matrix; in Python this input even
raises an `IndexError` inside `add_matrix` on the ragged quadrants). -/
theorem benchmark_core_no_odd_fallback :
    _strassen_core [[2, 0, 1], [1, 3, 2], [0, 1, 4]] [[1, 0, 0], [0, 1, 0], [0, 0, 1]] 1
      ≠ matmul_classic [[2, 0, 1], [1, 3, 2], [0, 1, 4]]
          [[1, 0, 0], [0, 1, 0], [0, 0, 1]] := by
  decide

/-- C5 amended: it is `answer.py`'s `strassen_core` (the variant without
entry-point padding) that falls back to `matmul_classic` whenever the order
is odd and above the cutoff; `matrix_benchmark.py`'s `_strassen_core` has no
such fallback and is only invoked on power-of-two orders by its entry point. -/
theorem answer_core_odd_fallback (n cutoff : Nat) (A B : Matrix)
    (hA : A.length = n) (hodd : n % 2 = 1) (hcut : cutoff < n) :
    strassen_core A B cutoff = matmul_classic A B := by
  obtain ⟨f, hf⟩ : ∃ f, n = f + 1 := ⟨n - 1, by omega⟩
  unfold strassen_core
  rw [hA, hf, answerGo, if_neg (by omega), if_pos (by omega)]

/-- Witness for the amended C5 at `n = 3`, cutoff 1. -/
theorem answer_core_odd_fallback_witness :
    strassen_core [[2, 0, 1], [1, 3, 2], [0, 1, 4]] [[1, 0, 0], [0, 1, 0], [0, 0, 1]] 1
      = matmul_classic [[2, 0, 1], [1, 3, 2], [0, 1, 4]]
          [[1, 0, 0], [0, 1, 0], [0, 0, 1]] :=
  answer_core_odd_fallback 3 1 [[2, 0, 1], [1, 3, 2], [0, 1, 4]]
    [[1, 0, 0], [0, 1, 0], [0, 0, 1]] (by decide) (by decide) (by decide)

/-! ## Claim C6: shape validation at the entry points -/

/-- C6 counterexample: with `A = []` (order 0) and `B = [[1]]` (order 1)
the operand orders differ, yet both entry points return `ok []` — the
empty-input short-circuit runs before any validation, so no shape error is
raised. -/
theorem shape_error_counterexample :
    matmul_strassen [] [[1]] 64 = Except.ok [] ∧
      matmul_strassen_winograd [] [[1]] 64 = Except.ok [] :=
  ⟨rfl, rfl⟩

/-- C6 amended: when `A` is nonempty and the first-row shape check fails
(`len(B)`, `len(A[0])` or `len(B[0])` differs from `len(A)`), both
benchmark entry points fail with the shape error; an empty `A` short-circuits
to `ok []` regardless of `B`, and rows beyond the first are not inspected
(see C10). -/
theorem shape_error_on_first_row_mismatch (A B : Matrix) (cutoff : Nat)
    (h0 : 1 ≤ A.length)
    (hbad : ¬(A.length = B.length ∧ A.length = (A.getD 0 []).length ∧
      A.length = (B.getD 0 []).length)) :
    matmul_strassen A B cutoff = Except.error shapeErrMsg ∧
      matmul_strassen_winograd A B cutoff = Except.error shapeErrMsg := by
  constructor
  · simp only [matmul_strassen]
    rw [if_neg (by omega), if_pos hbad]
  · simp only [matmul_strassen_winograd]
    rw [if_neg (by omega), if_pos hbad]

/-- Witness for the amended C6: `A` 2x2, `B` 1x1. -/
theorem shape_error_on_first_row_mismatch_witness :
    matmul_strassen [[1, 2], [3, 4]] [[1]] 64 = Except.error shapeErrMsg ∧
      matmul_strassen_winograd [[1, 2], [3, 4]] [[1]] 64 = Except.error shapeErrMsg :=
  shape_error_on_first_row_mismatch [[1, 2], [3, 4]] [[1]] 64 (by decide) (by decide)

/-! ## Claim C7: the classical multiply does not validate orders -/

/-- C7 counterexample: `matmul_classic` contains no dimension check at all;
on square inputs of orders 2 and 3 it raises nothing and silently returns
the 2x2 product of `A` with the leading 2x2 block of `B`. -/
theorem classic_no_dimension_check :
    matmul_classic [[1, 0], [0, 1]] [[1, 2, 3], [4, 5, 6], [7, 8, 9]]
      = [[1, 2], [4, 5]] := by
  decide

/-- C7 amended: for square operands of orders `na ≤ nb`, `matmul_classic`
returns the order-`na` matrix `C[i][j] = ∑ k < na, A[i][k] * B[k][j]`
(truncating `B`) instead of failing with a dimension error. -/
theorem classic_mismatched_orders (na nb : Nat) (A B : Matrix)
    (hA : wf na A) (hB : wf nb B) (hle : na ≤ nb) :
    matmul_classic A B = matProdSpec na A B := by
  rw [matmul_classic_eq_spec, hA.1]

/-- Witness for the amended C7 at orders 2 and 3. -/
theorem classic_mismatched_orders_witness :
    matmul_classic [[1, 0], [0, 1]] [[1, 2, 3], [4, 5, 6], [7, 8, 9]]
      = matProdSpec 2 [[1, 0], [0, 1]] [[1, 2, 3], [4, 5, 6], [7, 8, 9]] :=
  classic_mismatched_orders 2 3 [[1, 0], [0, 1]] [[1, 2, 3], [4, 5, 6], [7, 8, 9]]
    (by decide) (by decide) (by decide)

/-! ## Claim C8: empty matrices are a valid degenerate case -/

/-- C8: on two empty matrices (order 0) every entry point returns the empty
matrix and raises no error. -/
theorem empty_matrices_ok :
    matmul_classic [] [] = [] ∧
      matmul_strassen [] [] 64 = Except.ok [] ∧
      matmul_strassen_winograd [] [] 64 = Except.ok [] ∧
      Answer.matmul_strassen [] [] 64 = Except.ok [] :=
  ⟨rfl, rfl, rfl, rfl⟩

/-! ## Claim C10: validation inspects only the first rows -/

/-- C10: the ragged input `A = [[1,2],[3,4,5]]` is not square (its second
row has length 3 while `len(A) = 2`), yet the first-row-based check accepts
it and all three Strassen entry points return a result without any shape
error. -/
theorem ragged_input_accepted :
    ([[1, 2], [3, 4, 5]] : Matrix).length = 2 ∧
      (([[1, 2], [3, 4, 5]] : Matrix).getD 1 []).length = 3 ∧
      matmul_strassen [[1, 2], [3, 4, 5]] [[1, 0], [0, 1]] 64
        = Except.ok [[1, 2], [3, 4]] ∧
      matmul_strassen_winograd [[1, 2], [3, 4, 5]] [[1, 0], [0, 1]] 64
        = Except.ok [[1, 2], [3, 4]] ∧
      Answer.matmul_strassen [[1, 2], [3, 4, 5]] [[1, 0], [0, 1]] 64
        = Except.ok [[1, 2], [3, 4]] := by
  refine ⟨rfl, rfl, ?_, ?_, ?_⟩ <;> rfl

end MatMul
